import Mathlib

/-!
Shallow embedding of the MOS bulletin decoder from `src/mos/mod.rs`
(`MOS::new`, `MOS::parse_meta`) together with the data model
(`MOSMeta`, `MOSEntry`, `MOS`) and the error values of `src/mos/error.rs`.

Conventions of the embedding:
* A line of text is a `List Char`; offsets are character offsets.  The Rust
  code works with byte offsets, which coincide with character offsets on
  ASCII input (all concrete inputs below are ASCII).
* Timestamps are minutes since the Unix epoch (UTC).  `chrono`'s
  `Duration::hours(h)` becomes `60 * h` minutes; the parsed header format
  `%m/%d/%Y %H%M` has minute precision, so nothing is lost.
* Rust `panic` (out-of-bounds string slicing in the field mapper) is
  modelled by the outer `Option` of `MOS.new`: `none` means the decoder
  panicked, `some r` means it returned `r : Result<MOS, TaggedError>`.
* `TaggedError` in the source carries a message string; we use one
  constructor per distinct message produced by the decode path.
-/

/-- Whitespace test used by Rust `str::trim` / `split_whitespace`.
The Rust functions accept all Unicode whitespace; the bulletin format only
ever contains the ASCII whitespace modelled here. -/
def isWs (c : Char) : Bool :=
  c == ' ' || c == '\t' || c == '\n' || c == '\r'

/-- Model of Rust `str::trim`: drop whitespace from both ends. -/
def trimChars (l : List Char) : List Char :=
  ((l.dropWhile isWs).reverse.dropWhile isWs).reverse

/-- Model of Rust `raw_mos.split("\n")`: split on newline keeping empty
pieces; the result is never empty (the empty string yields one empty line). -/
def splitNl : List Char → List (List Char)
  | [] => [[]]
  | c :: rest =>
    if c = '\n' then [] :: splitNl rest
    else
      match splitNl rest with
      | [] => [[c]]
      | l :: ls => (c :: l) :: ls

/-- Helper of `splitWs`: accumulate the current (reversed) token. -/
def splitWsAux : List Char → List Char → List (List Char)
  | [], acc => if acc = [] then [] else [acc.reverse]
  | c :: rest, acc =>
    if isWs c then
      if acc = [] then splitWsAux rest []
      else acc.reverse :: splitWsAux rest []
    else splitWsAux rest (c :: acc)

/-- Model of Rust `str::split_whitespace`: maximal non-whitespace tokens,
empty tokens skipped. -/
def splitWs (l : List Char) : List (List Char) :=
  splitWsAux l []

/-- Numeric value of a list of ASCII digits. -/
def digitsVal (ds : List Char) : Nat :=
  ds.foldl (fun a c => 10 * a + (c.toNat - 48)) 0

/-- Model of chrono's `scan::number(s, 1, maxW)`: greedily consume at most
`maxW` leading ASCII digits, requiring at least one. -/
def scanNum (s : List Char) (maxW : Nat) : Option (Nat × List Char) :=
  let ds := (s.takeWhile (fun c => c.isDigit)).take maxW
  if ds = [] then none
  else some (digitsVal ds, s.drop ds.length)

/-- Unbounded digit scan (chrono's signed-year path). -/
def scanNumAll (s : List Char) : Option (Nat × List Char) :=
  let ds := s.takeWhile (fun c => c.isDigit)
  if ds = [] then none
  else some (digitsVal ds, s.drop ds.length)

/-- Model of chrono's `%Y` item: an optional sign (unbounded digits after an
explicit sign, at most four without one). -/
def scanYear (s : List Char) : Option (Int × List Char) :=
  match s with
  | '-' :: r => (scanNumAll r).map (fun p => (-(p.1 : Int), p.2))
  | '+' :: r => (scanNumAll r).map (fun p => ((p.1 : Int), p.2))
  | _ => (scanNum s 4).map (fun p => ((p.1 : Int), p.2))

/-- Proleptic Gregorian leap-year test (as chrono computes it). -/
def isLeap (y : Int) : Bool :=
  y % 4 == 0 && (!(y % 100 == 0) || y % 400 == 0)

/-- Days in a month of the proleptic Gregorian calendar. -/
def daysInMonth (y : Int) (m : Nat) : Nat :=
  if m = 2 then (if isLeap y then 29 else 28)
  else if m = 4 ∨ m = 6 ∨ m = 9 ∨ m = 11 then 30
  else 31

/-- The calendar validation chrono performs when resolving a parsed date and
time (`NaiveDate::from_ymd_opt` plus hour/minute ranges); the year bounds are
chrono's `MIN_YEAR`/`MAX_YEAR`. -/
def validYMD (y : Int) (m d : Nat) : Bool :=
  decide (1 ≤ m ∧ m ≤ 12 ∧ 1 ≤ d ∧ d ≤ daysInMonth y m ∧
          -262144 ≤ y ∧ y ≤ 262143)

/-- Days from 1970-01-01 to the proleptic Gregorian date y-m-d (valid input
assumed), computed with floor division. -/
def daysFromCivil (y : Int) (m d : Nat) : Int :=
  let yAdj : Int := if m ≤ 2 then y - 1 else y
  let era : Int := Int.fdiv yAdj 400
  let yoe : Int := yAdj - era * 400
  let mp : Nat := if m ≤ 2 then m + 9 else m - 3
  let doy : Nat := (153 * mp + 2) / 5 + d - 1
  let doe : Int := yoe * 365 + Int.fdiv yoe 4 - Int.fdiv yoe 100 + (doy : Int)
  era * 146097 + doe - 719468

/-- Model of `Utc.datetime_from_str(s, "%m/%d/%Y %H%M")`: strict parse of the
whole string, returning minutes since the Unix epoch.  The format-space
between `%Y` and `%H` matches any run of whitespace (including none), as
chrono's `Item::Space` does; trailing input is an error. -/
def parseTimestamp (s : List Char) : Option Int :=
  match scanNum s 2 with
  | none => none
  | some (m, r1) =>
    match r1 with
    | '/' :: r2 =>
      match scanNum r2 2 with
      | none => none
      | some (d, r3) =>
        match r3 with
        | '/' :: r4 =>
          match scanYear r4 with
          | none => none
          | some (y, r5) =>
            match scanNum (r5.dropWhile isWs) 2 with
            | none => none
            | some (hh, r7) =>
              match scanNum r7 2 with
              | none => none
              | some (mm, r8) =>
                if r8.isEmpty && validYMD y m d &&
                    decide (hh < 24) && decide (mm < 60) then
                  some (1440 * daysFromCivil y m d + 60 * (hh : Int) + (mm : Int))
                else none
        | _ => none
    | _ => none

/-- A nonempty, all-digit token's value. -/
def digitsOnly (ds : List Char) : Option Nat :=
  if ds.isEmpty then none
  else if ds.all (fun c => c.isDigit) then some (digitsVal ds)
  else none

/-- Model of Rust `str::parse::<isize>()` (64-bit target): optional sign,
one or more ASCII digits, nothing else, with the i64 overflow check. -/
def parseIsize (s : String) : Option Int :=
  match s.data with
  | [] => none
  | '+' :: ds =>
    (digitsOnly ds).bind (fun v =>
      if (v : Int) ≤ 9223372036854775807 then some (v : Int) else none)
  | '-' :: ds =>
    (digitsOnly ds).bind (fun v =>
      if (v : Int) ≤ 9223372036854775808 then some (-(v : Int)) else none)
  | ds =>
    (digitsOnly ds).bind (fun v =>
      if (v : Int) ≤ 9223372036854775807 then some (v : Int) else none)

/-- The error values of `error::TaggedError` produced along the decode path,
one constructor per distinct message. -/
inductive TaggedError where
  /-- "mos string is empty" -/
  | emptyInput : TaggedError
  /-- "no icao in the first line of the mos" -/
  | noIcao : TaggedError
  /-- "no date in the first line of the mos" -/
  | noDate : TaggedError
  /-- "no time in the first line of the mos" -/
  | noTime : TaggedError
  /-- chrono timestamp parse failure, converted via `From<chrono::ParseError>` -/
  | timestampParse : TaggedError
  /-- "could not parse hour line" -/
  | noHourLine : TaggedError
deriving DecidableEq, Repr, BEq

/-- The spec's `MalformedHeader` class: header line missing required tokens
(the source's three distinct messages). -/
def malformedHeader (e : TaggedError) : Prop :=
  e = TaggedError.noIcao ∨ e = TaggedError.noDate ∨ e = TaggedError.noTime

/-- `MOSMeta` of the source: station identifier and base timestamp. -/
structure MOSMeta where
  icao : String
  timestamp : Int
deriving DecidableEq, Repr

/-- `MOSEntry` of the source: one forecast-hour record, every field
independently optional. -/
structure MOSEntry where
  timestamp : Int
  nx : Option Int
  tmp : Option Int
  dpt : Option Int
  cld : Option String
  wdr : Option Int
  wsp : Option Int
  p06 : Option Int
  p12 : Option Int
  q06 : Option Int
  q12 : Option Int
  t06 : Option (Int × Int)
  t12 : Option (Int × Int)
  poz : Option Int
  pos : Option Int
  typ : Option String
  snw : Option Int
  cig : Option Int
  vis : Option Int
  obv : Option String
deriving DecidableEq, Repr

/-- `MOSEntry::default()`: epoch timestamp, every field absent. -/
def MOSEntry.default : MOSEntry :=
  { timestamp := 0, nx := none, tmp := none, dpt := none, cld := none,
    wdr := none, wsp := none, p06 := none, p12 := none, q06 := none,
    q12 := none, t06 := none, t12 := none, poz := none, pos := none,
    typ := none, snw := none, cig := none, vis := none, obv := none }

/-- `MOS` of the source: metadata, ordered entries, verbatim raw text. -/
structure MOS where
  meta : MOSMeta
  entries : List MOSEntry
  raw : String
deriving DecidableEq, Repr

/-- Model of the mapper's `prefix_re.find(line)` for `^ *([^ ]+)`: the end
offset of the leading-token match together with the captured token
(`none` when the line is empty or all spaces). -/
def firstToken (line : List Char) : Option (Nat × List Char) :=
  let sp := (line.takeWhile (fun c => c == ' ')).length
  let tok := (line.drop sp).takeWhile (fun c => !(c == ' '))
  if tok = [] then none else some (sp + tok.length, tok)

/-- Model of the hour-row filter `^ *([^ ]+) +.*$` with capture equal to
"HR": after optional leading spaces, a nonempty space-free token equal to
`HR` followed by at least one space. -/
def hrLineP (line : List Char) : Bool :=
  let rest := line.dropWhile (fun c => c == ' ')
  let tok := rest.takeWhile (fun c => !(c == ' '))
  let after := rest.drop tok.length
  !(tok == []) && (after.head? == some ' ') && (tok == "HR".data)

/-- One attempted match of `( *[0-9][0-9])` at the start of `s`: leading
spaces then two ASCII digits; returns the match length. -/
def matchAt (s : List Char) : Option Nat :=
  let j := (s.takeWhile (fun c => c == ' ')).length
  match s.drop j with
  | c1 :: c2 :: _ => if c1.isDigit && c2.isDigit then some (j + 2) else none
  | _ => none

/-- Fuelled scan implementing `find_iter`'s leftmost-first, non-overlapping
match semantics; `q` is the absolute offset of the current position.  Each
step either consumes a whole match (length at least 2) or advances one
character, so fuel equal to the line length always suffices. -/
def findColsAux : Nat → List Char → Nat → List (Nat × Nat)
  | 0, _, _ => []
  | _ + 1, [], _ => []
  | fuel + 1, c :: rest, q =>
    match matchAt (c :: rest) with
    | some len => (q, q + len) :: findColsAux fuel ((c :: rest).drop len) (q + len)
    | none => findColsAux fuel rest (q + 1)

/-- Model of `data_re.find_iter(line)` for `( *[0-9][0-9])`: the
`(start, end)` spans of all matches on the hour-row line. -/
def findCols (s : List Char) : List (Nat × Nat) :=
  findColsAux s.length s 0

/-- The column locator: first line passing the HR filter, mapped to its
column spans.  `none` only when no line passes the filter (a line with zero
matches yields `some []`, exactly as the source's `and_then` does). -/
def findHourChunks (lines : List (List Char)) : Option (List (Nat × Nat)) :=
  (lines.find? hrLineP).map findCols

/-- Model of Rust `&line[a..b]`: `none` models the slicing panic, raised
when `a > b` or `b` exceeds the line length (byte and character offsets
coincide on ASCII input). -/
def sliceChecked (l : List Char) (a b : Nat) : Option (List Char) :=
  if a ≤ b ∧ b ≤ l.length then some ((l.drop a).take (b - a)) else none

/-- The label dispatch of `MOS::new` (source lines 152-261): each recognized
label decodes the cell into its field; integer labels tolerate parse failure
by storing `none`; string labels always store `some data`; unrecognized
labels leave the entry unchanged. -/
def dispatch (tok : String) (data : String) (e : MOSEntry) : MOSEntry :=
  if tok = "N/X" ∨ tok = "X/N" then { e with nx := parseIsize data }
  else if tok = "TMP" then { e with tmp := parseIsize data }
  else if tok = "DPT" then { e with dpt := parseIsize data }
  else if tok = "CLD" then { e with cld := some data }
  else if tok = "WDR" then { e with wdr := parseIsize data }
  else if tok = "WSP" then { e with wsp := parseIsize data }
  else if tok = "P06" then { e with p06 := parseIsize data }
  else if tok = "P12" then { e with p12 := parseIsize data }
  else if tok = "Q06" then { e with q06 := parseIsize data }
  else if tok = "Q12" then { e with q12 := parseIsize data }
  else if tok = "POZ" then { e with poz := parseIsize data }
  else if tok = "POS" then { e with pos := parseIsize data }
  else if tok = "TYP" then { e with typ := some data }
  else if tok = "SNW" then { e with snw := parseIsize data }
  else if tok = "CIG" then { e with cig := parseIsize data }
  else if tok = "VIS" then { e with vis := parseIsize data }
  else if tok = "OBV" then { e with obv := some data }
  else e

/-- One iteration of the mapper's `lines.iter().for_each(...)` closure for
column `i` with span `chunk`.  A line with no leading token is skipped (the
closure's early `return`).  The label `prefix_str` is
`line[0..prefix.end()].trim()`, i.e. the leading spaces followed by the
token, trimmed — which equals the trimmed token.  The data cell is sliced
from the row's own token end for column 0 and from the span start otherwise;
an out-of-range slice is the Rust panic (`none`). -/
def processLine (chunk : Nat × Nat) (i : Nat) (e : MOSEntry) (line : List Char) :
    Option MOSEntry :=
  match firstToken line with
  | none => some e
  | some (pe, tok) =>
    match (if i = 0 then sliceChecked line pe chunk.2
           else sliceChecked line chunk.1 chunk.2) with
    | none => none
    | some cell =>
      some (dispatch (String.mk (trimChars tok)) (String.mk (trimChars cell)) e)

/-- The mapper's fold of one entry over every line of the bulletin. -/
def foldLines (chunk : Nat × Nat) (i : Nat) :
    List (List Char) → MOSEntry → Option MOSEntry
  | [], e => some e
  | line :: rest, e =>
    match processLine chunk i e line with
    | none => none
    | some e2 => foldLines chunk i rest e2

/-- One entry of `chunks.iter().enumerate().map(...)`: a default entry
folded over all lines. -/
def buildEntry (lines : List (List Char)) (i : Nat) (chunk : Nat × Nat) :
    Option MOSEntry :=
  foldLines chunk i lines MOSEntry.default

/-- All entries, in column order; `i` is the enumeration index. -/
def buildEntriesAux (lines : List (List Char)) :
    Nat → List (Nat × Nat) → Option (List MOSEntry)
  | _, [] => some []
  | i, c :: cs =>
    match buildEntry lines i c with
    | none => none
    | some e =>
      match buildEntriesAux lines (i + 1) cs with
      | none => none
      | some es => some (e :: es)

/-- The timestamp assigner's hour increment for entry `i` of `n`
(source lines 276-280). -/
def addHours (n i : Nat) : Int :=
  3 * (i : Int) + 6 +
    (if 2 < n ∧ n - 2 ≤ i then 3 * ((3 - (n - i) : Nat) : Int) else 0)

/-- Set one entry's timestamp from the base timestamp and its index. -/
def assignTs (base : Int) (n i : Nat) (e : MOSEntry) : MOSEntry :=
  { e with timestamp := base + 60 * addHours n i }

/-- The timestamp assigner's `enumerate().map(...)` over the entries. -/
def assignAll (base : Int) (n : Nat) : Nat → List MOSEntry → List MOSEntry
  | _, [] => []
  | i, e :: rest => assignTs base n i e :: assignAll base n (i + 1) rest

/-- Model of `MOS::parse_meta` (source lines 289-307): tokens 0, 4 and 5 of
the whitespace-split header line are the station identifier, date and time;
the date and time joined by a space are parsed as `%m/%d/%Y %H%M`. -/
def parseMeta (line : List Char) : Except TaggedError MOSMeta :=
  let toks := splitWs line
  match toks.get? 0 with
  | none => Except.error TaggedError.noIcao
  | some icao =>
    match toks.get? 4 with
    | none => Except.error TaggedError.noDate
    | some date =>
      match toks.get? 5 with
      | none => Except.error TaggedError.noTime
      | some time =>
        match parseTimestamp (date ++ ' ' :: time) with
        | none => Except.error TaggedError.timestampParse
        | some ts => Except.ok { icao := String.mk icao, timestamp := ts }

/-- The body of `MOS::new` after `lines` has been bound (source lines
84-287): header, column locator, field mapper, timestamp assigner. -/
def decodeLines (raw : String) : List (List Char) → Option (Except TaggedError MOS)
  | [] => some (Except.error TaggedError.emptyInput)
  | metaLine :: rest =>
    match parseMeta metaLine with
    | Except.error e => some (Except.error e)
    | Except.ok meta =>
      match findHourChunks (metaLine :: rest) with
      | none => some (Except.error TaggedError.noHourLine)
      | some chunks =>
        match buildEntriesAux (metaLine :: rest) 0 chunks with
        | none => none
        | some entries0 =>
          some (Except.ok
            { meta := meta,
              entries := assignAll meta.timestamp entries0.length 0 entries0,
              raw := raw })

/-- `MOS::new` itself: split the raw text on newlines and decode.  The outer
`Option` is `none` exactly when the Rust code panics. -/
def MOS.new (raw : String) : Option (Except TaggedError MOS) :=
  decodeLines raw (splitNl raw.data)

/-- A well-formed single-column bulletin used as a concrete witness input. -/
def ex1 : String := "KFIT GFS MOS GUIDANCE 1/02/2020 0000 UTC\nHR 06"

/-- The decode result of `ex1`: one entry, timestamp six hours after the
2020-01-02T00:00Z base (in minutes since the epoch). -/
def ex1mos : MOS :=
  { meta := { icao := "KFIT", timestamp := 26298720 },
    entries := [{ MOSEntry.default with timestamp := 26299080 }],
    raw := ex1 }

/-- A two-column bulletin with a TMP row aligned to the hour-row spans. -/
def ex6 : String :=
  "KFIT GFS MOS GUIDANCE 1/02/2020 0000 UTC\nHR  06 09\nTMP 45 50"

/-- The decode result of `ex6`: two entries carrying the TMP cells, at base
plus 6 and 9 hours. -/
def ex6mos : MOS :=
  { meta := { icao := "KFIT", timestamp := 26298720 },
    entries :=
      [{ MOSEntry.default with tmp := some 45, timestamp := 26299080 },
       { MOSEntry.default with tmp := some 50, timestamp := 26299260 }],
    raw := ex6 }

/-- A bulletin whose hour row passes the HR filter but contains zero
two-digit matches. -/
def cex2 : String := "KFIT GFS MOS GUIDANCE 1/02/2020 0000 UTC\nHR x"

/-- The decode result of `cex2`: a successful decode with zero entries. -/
def cex2mos : MOS :=
  { meta := { icao := "KFIT", timestamp := 26298720 },
    entries := [],
    raw := cex2 }

/-- A bulletin whose third line is shorter than the first column span: the
field mapper slices `&"X"[1..6]`, which panics in Rust. -/
def cex7 : String := "KFIT GFS MOS GUIDANCE 1/02/2020 0000 UTC\nHR  06 09\nX"

lemma splitNl_ne_nil : ∀ l : List Char, splitNl l ≠ [] := by
  intro l
  induction l with
  | nil => simp [splitNl]
  | cons c rest ih =>
    simp only [splitNl]
    split
    · simp
    · cases hsp : splitNl rest with
      | nil => exact absurd hsp ih
      | cons l0 ls => simp

lemma listGetqNone {α : Type} (l : List α) (n : Nat) (h : l.length ≤ n) :
    l.get? n = none := by
  induction l generalizing n with
  | nil => rfl
  | cons a t ih =>
    cases n with
    | zero => simp at h
    | succ n => exact ih n (by simpa using h)

lemma listGetqGet {α : Type} (l : List α) (n : Nat) (h : n < l.length) :
    l.get? n = some (l.get ⟨n, h⟩) := by
  induction l generalizing n with
  | nil => simp at h
  | cons a t ih =>
    cases n with
    | zero => rfl
    | succ n => exact ih n (by simpa using h)

lemma listGetqMem {α : Type} {l : List α} {a : α} (h : a ∈ l) :
    ∃ n, l.get? n = some a := by
  induction l with
  | nil => simp at h
  | cons b t ih =>
    rcases List.mem_cons.mp h with h1 | h2
    · exact ⟨0, by simp [h1]⟩
    · obtain ⟨n, hn⟩ := ih h2
      exact ⟨n + 1, by simpa using hn⟩

lemma assignAll_getq (base : Int) (n : Nat) :
    ∀ (l : List MOSEntry) (i k : Nat),
      (assignAll base n i l).get? k = (l.get? k).map (assignTs base n (i + k)) := by
  intro l
  induction l with
  | nil => intro i k; simp [assignAll]
  | cons e t ih =>
    intro i k
    cases k with
    | zero => simp [assignAll]
    | succ k =>
      simp only [assignAll, List.get?]
      rw [ih (i + 1) k, show i + (k + 1) = i + 1 + k from by omega]

lemma assignAll_length (base : Int) (n : Nat) :
    ∀ (i : Nat) (l : List MOSEntry), (assignAll base n i l).length = l.length := by
  intro i l
  induction l generalizing i with
  | nil => simp [assignAll]
  | cons e t ih => simp [assignAll, ih]

lemma buildEntriesAux_spec (lines : List (List Char)) :
    ∀ (cs : List (Nat × Nat)) (i : Nat) (es : List MOSEntry),
      buildEntriesAux lines i cs = some es →
        es.length = cs.length ∧
        ∀ k c, cs.get? k = some c →
          ∃ e0, buildEntry lines (i + k) c = some e0 ∧ es.get? k = some e0 := by
  intro cs
  induction cs with
  | nil =>
    intro i es h
    simp only [buildEntriesAux] at h
    cases h
    exact ⟨rfl, by intro k c hc; simp at hc⟩
  | cons c0 cs ih =>
    intro i es h
    simp only [buildEntriesAux] at h
    cases hbe : buildEntry lines i c0 with
    | none => rw [hbe] at h; simp at h
    | some e0 =>
      rw [hbe] at h
      cases hrest : buildEntriesAux lines (i + 1) cs with
      | none => rw [hrest] at h; simp at h
      | some es0 =>
        rw [hrest] at h
        cases h
        obtain ⟨hlen, hget⟩ := ih (i + 1) es0 hrest
        refine ⟨by simp [hlen], ?_⟩
        intro k c hc
        cases k with
        | zero =>
          simp only [List.get?] at hc
          cases hc
          exact ⟨e0, by simpa using hbe, rfl⟩
        | succ k =>
          simp only [List.get?] at hc ⊢
          obtain ⟨e1, he1, hes⟩ := hget k c hc
          exact ⟨e1, by rwa [show i + (k + 1) = i + 1 + k by omega], hes⟩

lemma dispatch_t06 (tok data : String) (e : MOSEntry) :
    (dispatch tok data e).t06 = e.t06 := by
  unfold dispatch
  simp only [apply_ite MOSEntry.t06, ite_self]

lemma dispatch_t12 (tok data : String) (e : MOSEntry) :
    (dispatch tok data e).t12 = e.t12 := by
  unfold dispatch
  simp only [apply_ite MOSEntry.t12, ite_self]

lemma processLine_t (chunk : Nat × Nat) (i : Nat) (e : MOSEntry)
    (line : List Char) (e2 : MOSEntry)
    (h : processLine chunk i e line = some e2) :
    e2.t06 = e.t06 ∧ e2.t12 = e.t12 := by
  unfold processLine at h
  cases hft : firstToken line with
  | none =>
    simp only [hft, Option.some.injEq] at h
    subst h
    exact ⟨rfl, rfl⟩
  | some pt =>
    obtain ⟨pe, tok⟩ := pt
    simp only [hft] at h
    cases hs : (if i = 0 then sliceChecked line pe chunk.2
                else sliceChecked line chunk.1 chunk.2) with
    | none =>
      rw [hs] at h
      exact Option.noConfusion h
    | some cell =>
      simp only [hs, Option.some.injEq] at h
      subst h
      exact ⟨dispatch_t06 _ _ _, dispatch_t12 _ _ _⟩

lemma foldLines_t (chunk : Nat × Nat) (i : Nat) :
    ∀ (ls : List (List Char)) (e e2 : MOSEntry),
      foldLines chunk i ls e = some e2 → e2.t06 = e.t06 ∧ e2.t12 = e.t12 := by
  intro ls
  induction ls with
  | nil =>
    intro e e2 h
    simp only [foldLines, Option.some.injEq] at h
    subst h
    exact ⟨rfl, rfl⟩
  | cons line rest ih =>
    intro e e2 h
    simp only [foldLines] at h
    cases hp : processLine chunk i e line with
    | none =>
      rw [hp] at h
      exact Option.noConfusion h
    | some e1 =>
      simp only [hp] at h
      obtain ⟨h1, h2⟩ := ih e1 e2 h
      obtain ⟨h3, h4⟩ := processLine_t _ _ _ _ _ hp
      exact ⟨h1.trans h3, h2.trans h4⟩

lemma processLine_eq (line : List Char) (i s e pe : Nat) (tok : List Char)
    (entry : MOSEntry) (hft : firstToken line = some (pe, tok))
    (h0 : i = 0 → pe ≤ e ∧ e ≤ line.length)
    (h1 : i ≠ 0 → s ≤ e ∧ e ≤ line.length) :
    processLine (s, e) i entry line =
      some (dispatch (String.mk (trimChars tok))
        (String.mk (trimChars (if i = 0 then (line.drop pe).take (e - pe)
                               else (line.drop s).take (e - s)))) entry) := by
  unfold processLine
  rw [hft]
  by_cases hi : i = 0
  · subst hi
    have hr := h0 rfl
    simp [sliceChecked, hr.1, hr.2]
  · have hr := h1 hi
    simp [sliceChecked, hi, hr.1, hr.2]

lemma new_ok_spec (raw : String) (mos : MOS)
    (h : MOS.new raw = some (Except.ok mos)) :
    ∃ metaLine rest chunks entries0,
      splitNl raw.data = metaLine :: rest ∧
      parseMeta metaLine = Except.ok mos.meta ∧
      findHourChunks (metaLine :: rest) = some chunks ∧
      buildEntriesAux (metaLine :: rest) 0 chunks = some entries0 ∧
      mos.entries = assignAll mos.meta.timestamp entries0.length 0 entries0 ∧
      mos.raw = raw := by
  unfold MOS.new at h
  cases hsp : splitNl raw.data with
  | nil => exact absurd hsp (splitNl_ne_nil _)
  | cons m rest =>
    rw [hsp] at h
    simp only [decodeLines] at h
    cases hpm : parseMeta m with
    | error err => simp only [hpm] at h; simp at h
    | ok meta =>
      simp only [hpm] at h
      cases hfc : findHourChunks (m :: rest) with
      | none => simp only [hfc] at h; simp at h
      | some chunks =>
        simp only [hfc] at h
        cases hbe : buildEntriesAux (m :: rest) 0 chunks with
        | none => simp only [hbe] at h; simp at h
        | some es =>
          simp only [hbe, Option.some.injEq, Except.ok.injEq] at h
          subst h
          exact ⟨m, rest, chunks, es, rfl, hpm, hfc, hbe, rfl, rfl⟩

/-- C1: for every successfully decoded report with n entries, the timestamp
of the entry at index i is the base timestamp plus `3*i + 6` hours, plus
`3 * (3 - (n - i))` further hours exactly when `n > 2` and `i ≥ n - 2`; in
particular for `n ≤ 2` every timestamp is exactly base plus `3*i + 6` hours
(timestamps are in minutes, so an hour is 60). -/
theorem C1_timestamp_assignment (raw : String) (mos : MOS)
    (h : MOS.new raw = some (Except.ok mos)) (i : Nat)
    (hi : i < mos.entries.length) :
    ((mos.entries.get ⟨i, hi⟩).timestamp
        = mos.meta.timestamp
          + 60 * (3 * (i : Int) + 6
            + (if 2 < mos.entries.length ∧ mos.entries.length - 2 ≤ i then
                 3 * ((3 - (mos.entries.length - i) : Nat) : Int) else 0)))
      ∧ (mos.entries.length ≤ 2 →
          (mos.entries.get ⟨i, hi⟩).timestamp
            = mos.meta.timestamp + 60 * (3 * (i : Int) + 6)) := by
  obtain ⟨m, rest, chunks, es, hsp, hpm, hfc, hbe, hent, hraw⟩ := new_ok_spec raw mos h
  have hlen : mos.entries.length = es.length := by
    rw [hent, assignAll_length]
  have hi2 : i < es.length := hlen ▸ hi
  have hq : es.get? i = some (es.get ⟨i, hi2⟩) := listGetqGet es i hi2
  have hq2 : mos.entries.get? i
      = some (assignTs mos.meta.timestamp es.length i (es.get ⟨i, hi2⟩)) := by
    rw [hent, assignAll_getq, hq]
    simp
  have hq3 : mos.entries.get? i = some (mos.entries.get ⟨i, hi⟩) :=
    listGetqGet _ i hi
  have hval : mos.entries.get ⟨i, hi⟩
      = assignTs mos.meta.timestamp es.length i (es.get ⟨i, hi2⟩) :=
    Option.some.inj (hq3.symm.trans hq2)
  constructor
  · rw [hval]
    show mos.meta.timestamp + 60 * addHours es.length i = _
    unfold addHours
    rw [← hlen]
  · intro h2
    rw [hval]
    show mos.meta.timestamp + 60 * addHours es.length i = _
    unfold addHours
    have hle : es.length ≤ 2 := hlen ▸ h2
    rw [if_neg (by omega)]
    ring

/-- C1 witness: the single-column bulletin `ex1` decodes with its entry
timestamped at base plus six hours. -/
theorem C1_timestamp_assignment_witness :
    (ex1mos.entries.get ⟨0, by decide⟩).timestamp
      = ex1mos.meta.timestamp + 60 * (3 * (0 : Int) + 6) :=
  (C1_timestamp_assignment ex1 ex1mos rfl 0 (by decide)).2 (by decide)

/-- C4: header parsing takes token 0 as the station identifier and combines
token 4 (date) with token 5 (time) into the base timestamp; a missing date
or time token gives the MalformedHeader-class errors (`noDate` with fewer
than five tokens, `noTime` with exactly five; an empty line gives `noIcao`),
and a present-but-unparsable date/time pair gives `timestampParse`. -/
theorem C4_header_parsing (line : List Char) :
    (splitWs line = [] → parseMeta line = Except.error TaggedError.noIcao)
    ∧ (0 < (splitWs line).length → (splitWs line).length < 5 →
        parseMeta line = Except.error TaggedError.noDate)
    ∧ ((splitWs line).length = 5 → parseMeta line = Except.error TaggedError.noTime)
    ∧ (∀ icao date time, (splitWs line).get? 0 = some icao →
        (splitWs line).get? 4 = some date → (splitWs line).get? 5 = some time →
        (parseTimestamp (date ++ ' ' :: time) = none →
            parseMeta line = Except.error TaggedError.timestampParse)
        ∧ (∀ t, parseTimestamp (date ++ ' ' :: time) = some t →
            parseMeta line = Except.ok { icao := String.mk icao, timestamp := t })) := by
  refine ⟨?_, ?_, ?_, ?_⟩
  · intro h0
    simp [parseMeta, h0]
  · intro hpos hlt
    have hic := listGetqGet (splitWs line) 0 hpos
    have h4 : (splitWs line).get? 4 = none := listGetqNone _ 4 (by omega)
    rw [List.get?_eq_getElem?] at hic h4
    simp [parseMeta, hic, h4]
  · intro h5
    have hic := listGetqGet (splitWs line) 0 (by omega)
    have h4 := listGetqGet (splitWs line) 4 (by omega)
    have h5n : (splitWs line).get? 5 = none := listGetqNone _ 5 (by omega)
    rw [List.get?_eq_getElem?] at hic h4 h5n
    simp [parseMeta, hic, h4, h5n]
  · intro icao date time h0 h4 h5
    rw [List.get?_eq_getElem?] at h0 h4 h5
    constructor
    · intro hn
      simp [parseMeta, h0, h4, h5, hn]
    · intro t ht
      simp [parseMeta, h0, h4, h5, ht]

/-- C4 witness: a well-formed header parses to station KFIT with base
2020-01-02T00:00Z; a five-token header is missing its time; an unparsable
date yields the timestamp-parse error. -/
theorem C4_header_parsing_witness :
    parseMeta ("KFIT GFS MOS GUIDANCE 1/02/2020 0000 UTC".data)
        = Except.ok { icao := "KFIT", timestamp := 26298720 }
    ∧ parseMeta ("KFIT GFS MOS GUIDANCE 1/02/2020".data)
        = Except.error TaggedError.noTime
    ∧ parseMeta ("KFIT GFS MOS GUIDANCE XX/02/2020 0000".data)
        = Except.error TaggedError.timestampParse := by
  refine ⟨?_, ?_, ?_⟩
  · exact ((C4_header_parsing ("KFIT GFS MOS GUIDANCE 1/02/2020 0000 UTC".data)).2.2.2
      "KFIT".data "1/02/2020".data "0000".data rfl rfl rfl).2 26298720 rfl
  · exact (C4_header_parsing ("KFIT GFS MOS GUIDANCE 1/02/2020".data)).2.2.1 rfl
  · exact ((C4_header_parsing ("KFIT GFS MOS GUIDANCE XX/02/2020 0000".data)).2.2.2
      "KFIT".data "XX/02/2020".data "0000".data rfl rfl rfl).1 rfl

/-- C5: for every row label mapping to a single-integer field, the dispatch
sets exactly that field to the result of the signed-integer parse of the
trimmed cell (leaving every other field of the entry untouched), and when
the cell does not parse the field is left absent rather than failing. -/
theorem C5_numeric_cell_tolerance (data : String) (e : MOSEntry) :
    dispatch "N/X" data e = { e with nx := parseIsize data }
    ∧ dispatch "TMP" data e = { e with tmp := parseIsize data }
    ∧ dispatch "DPT" data e = { e with dpt := parseIsize data }
    ∧ dispatch "WDR" data e = { e with wdr := parseIsize data }
    ∧ dispatch "WSP" data e = { e with wsp := parseIsize data }
    ∧ dispatch "P06" data e = { e with p06 := parseIsize data }
    ∧ dispatch "P12" data e = { e with p12 := parseIsize data }
    ∧ dispatch "Q06" data e = { e with q06 := parseIsize data }
    ∧ dispatch "Q12" data e = { e with q12 := parseIsize data }
    ∧ dispatch "POZ" data e = { e with poz := parseIsize data }
    ∧ dispatch "POS" data e = { e with pos := parseIsize data }
    ∧ dispatch "SNW" data e = { e with snw := parseIsize data }
    ∧ dispatch "CIG" data e = { e with cig := parseIsize data }
    ∧ dispatch "VIS" data e = { e with vis := parseIsize data }
    ∧ (parseIsize data = none →
        (dispatch "N/X" data e).nx = none
        ∧ (dispatch "TMP" data e).tmp = none
        ∧ (dispatch "DPT" data e).dpt = none
        ∧ (dispatch "WDR" data e).wdr = none
        ∧ (dispatch "WSP" data e).wsp = none
        ∧ (dispatch "P06" data e).p06 = none
        ∧ (dispatch "P12" data e).p12 = none
        ∧ (dispatch "Q06" data e).q06 = none
        ∧ (dispatch "Q12" data e).q12 = none
        ∧ (dispatch "POZ" data e).poz = none
        ∧ (dispatch "POS" data e).pos = none
        ∧ (dispatch "SNW" data e).snw = none
        ∧ (dispatch "CIG" data e).cig = none
        ∧ (dispatch "VIS" data e).vis = none) := by
  refine ⟨rfl, rfl, rfl, rfl, rfl, rfl, rfl, rfl, rfl, rfl, rfl, rfl, rfl, rfl, ?_⟩
  intro h
  exact ⟨h, h, h, h, h, h, h, h, h, h, h, h, h, h⟩

/-- C5 witness: the non-numeric cell "XX" on a TMP row leaves the
temperature absent without any error. -/
theorem C5_numeric_cell_tolerance_witness :
    dispatch "TMP" "XX" MOSEntry.default
        = { MOSEntry.default with tmp := parseIsize "XX" }
    ∧ (dispatch "TMP" "XX" MOSEntry.default).tmp = none := by
  have h := C5_numeric_cell_tolerance "XX" MOSEntry.default
  exact ⟨h.2.1, (h.2.2.2.2.2.2.2.2.2.2.2.2.2.2 rfl).2.1⟩

/-- C3: for every data row reaching the field mapper with column span
(s, e), the cell for column 0 is the line sliced from the end of the row's
own label token to e (not from s), and for every other column it is the
slice from s to e; the slice is whitespace-trimmed before dispatch. -/
theorem C3_first_column_slicing (line : List Char) (i s e pe : Nat)
    (tok : List Char) (entry : MOSEntry)
    (hft : firstToken line = some (pe, tok))
    (h0 : i = 0 → pe ≤ e ∧ e ≤ line.length)
    (h1 : i ≠ 0 → s ≤ e ∧ e ≤ line.length) :
    processLine (s, e) i entry line =
      some (dispatch (String.mk (trimChars tok))
        (String.mk (trimChars (if i = 0 then (line.drop pe).take (e - pe)
                               else (line.drop s).take (e - s)))) entry) :=
  processLine_eq line i s e pe tok entry hft h0 h1

/-- C3 witness: on the row "WDR 123" with span (1, 6), column 0 is sliced
from the label end 3, giving " 12" and hence wind direction 12 (slicing
from 1 would instead give "DR 12"). -/
theorem C3_first_column_slicing_witness :
    processLine (1, 6) 0 MOSEntry.default ("WDR 123".data)
      = some { MOSEntry.default with wdr := some 12 } := by
  have h := C3_first_column_slicing ("WDR 123".data) 0 1 6 3 ("WDR".data)
    MOSEntry.default rfl (fun _ => by decide) (fun hne => absurd rfl hne)
  exact h.trans rfl

/-- C8: for the string-coded row labels CLD, TYP and OBV, the mapper stores
`some` of the trimmed cell text whenever the label matches, even when that
text is empty after trimming (the cell expression below may trim to the
empty list). -/
theorem C8_string_fields_some :
    (∀ (line : List Char) (s e i pe : Nat) (entry : MOSEntry),
      firstToken line = some (pe, "CLD".data) →
      (i = 0 → pe ≤ e ∧ e ≤ line.length) → (i ≠ 0 → s ≤ e ∧ e ≤ line.length) →
      processLine (s, e) i entry line =
        some { entry with cld := some (String.mk (trimChars
          (if i = 0 then (line.drop pe).take (e - pe)
           else (line.drop s).take (e - s)))) })
    ∧ (∀ (line : List Char) (s e i pe : Nat) (entry : MOSEntry),
      firstToken line = some (pe, "TYP".data) →
      (i = 0 → pe ≤ e ∧ e ≤ line.length) → (i ≠ 0 → s ≤ e ∧ e ≤ line.length) →
      processLine (s, e) i entry line =
        some { entry with typ := some (String.mk (trimChars
          (if i = 0 then (line.drop pe).take (e - pe)
           else (line.drop s).take (e - s)))) })
    ∧ (∀ (line : List Char) (s e i pe : Nat) (entry : MOSEntry),
      firstToken line = some (pe, "OBV".data) →
      (i = 0 → pe ≤ e ∧ e ≤ line.length) → (i ≠ 0 → s ≤ e ∧ e ≤ line.length) →
      processLine (s, e) i entry line =
        some { entry with obv := some (String.mk (trimChars
          (if i = 0 then (line.drop pe).take (e - pe)
           else (line.drop s).take (e - s)))) }) := by
  refine ⟨?_, ?_, ?_⟩ <;>
    · intro line s e i pe entry hft h0 h1
      exact (processLine_eq line i s e pe _ entry hft h0 h1).trans rfl

/-- C8 witness: a CLD row whose cell is all blanks still stores
`some ""` (present but empty) rather than leaving the field absent. -/
theorem C8_string_fields_some_witness :
    processLine (0, 6) 0 MOSEntry.default ("CLD    ".data)
      = some { MOSEntry.default with cld := some "" } := by
  have h := C8_string_fields_some.1 ("CLD    ".data) 0 6 0 3 MOSEntry.default
    rfl (fun _ => by decide) (fun hne => absurd rfl hne)
  exact h.trans rfl

/-- C6: for every successful decode, the number of entries equals the number
of two-digit matches found on the hour-row line, and entry i is built from
column span i (left to right) with its timestamp assigned from index i. -/
theorem C6_entry_count_order (raw : String) (mos : MOS) (hrLine : List Char)
    (h : MOS.new raw = some (Except.ok mos))
    (hhr : (splitNl raw.data).find? hrLineP = some hrLine) :
    mos.entries.length = (findCols hrLine).length
    ∧ ∀ i c, (findCols hrLine).get? i = some c →
        ∃ e0, buildEntry (splitNl raw.data) i c = some e0
          ∧ mos.entries.get? i
              = some (assignTs mos.meta.timestamp (findCols hrLine).length i e0) := by
  obtain ⟨m, rest, chunks, es, hsp, hpm, hfc, hbe, hent, hraw⟩ := new_ok_spec raw mos h
  rw [hsp] at hhr
  have hfc2 : findHourChunks (m :: rest) = some (findCols hrLine) := by
    unfold findHourChunks
    rw [hhr]
    rfl
  have hchunks : chunks = findCols hrLine := Option.some.inj (hfc.symm.trans hfc2)
  subst hchunks
  obtain ⟨hlen, hget⟩ := buildEntriesAux_spec _ _ _ _ hbe
  constructor
  · rw [hent, assignAll_length, hlen]
  · intro i c hc
    obtain ⟨e0, hbe0, hes0⟩ := hget i c hc
    refine ⟨e0, ?_, ?_⟩
    · rw [hsp]
      simpa using hbe0
    · rw [hent, assignAll_getq, hes0, hlen]
      simp

/-- C6 witness: the two-column bulletin `ex6` yields exactly as many entries
as there are two-digit matches on its hour row. -/
theorem C6_entry_count_order_witness :
    ex6mos.entries.length = (findCols ("HR  06 09".data)).length :=
  (C6_entry_count_order ex6 ex6mos ("HR  06 09".data) rfl rfl).1

/-- C10: in every successfully decoded report, the thunderstorm pair fields
t06 and t12 of every entry are absent: no row label populates them. -/
theorem C10_thunder_fields_none (raw : String) (mos : MOS)
    (h : MOS.new raw = some (Except.ok mos)) :
    ∀ e ∈ mos.entries, e.t06 = none ∧ e.t12 = none := by
  obtain ⟨m, rest, chunks, es, hsp, hpm, hfc, hbe, hent, hraw⟩ := new_ok_spec raw mos h
  intro e he
  rw [hent] at he
  obtain ⟨k, hk⟩ := listGetqMem he
  rw [assignAll_getq] at hk
  obtain ⟨hlen, hget⟩ := buildEntriesAux_spec _ _ _ _ hbe
  cases hes : es.get? k with
  | none => rw [hes] at hk; exact Option.noConfusion hk
  | some e0 =>
    rw [hes] at hk
    have hk2 : k < es.length := by
      by_contra hcon
      rw [listGetqNone es k (by omega)] at hes
      exact Option.noConfusion hes
    have hc := listGetqGet chunks k (by omega)
    obtain ⟨e1, hbe1, hes1⟩ := hget k _ hc
    have he01 : e1 = e0 := Option.some.inj (hes1.symm.trans hes)
    subst he01
    have ht := foldLines_t _ _ _ _ _ hbe1
    have hval : assignTs mos.meta.timestamp es.length (0 + k) e1 = e :=
      Option.some.inj hk
    rw [← hval]
    exact ⟨ht.1, ht.2⟩

/-- C10 witness: the decoded entry of `ex1` has both thunderstorm pair
fields absent. -/
theorem C10_thunder_fields_none_witness :
    ({ MOSEntry.default with timestamp := 26299080 } : MOSEntry).t06 = none
    ∧ ({ MOSEntry.default with timestamp := 26299080 } : MOSEntry).t12 = none :=
  C10_thunder_fields_none ex1 ex1mos rfl
    { MOSEntry.default with timestamp := 26299080 } (List.mem_cons_self _ _)

/-- C2 counterexample: on `cex2` the hour-row line is "HR x", which passes
the HR filter and has zero two-digit matches, yet decoding succeeds with an
empty entries list instead of failing with the NoColumns error. -/
theorem C2_no_columns_counterexample :
    (splitNl cex2.data).find? hrLineP = some ("HR x".data)
    ∧ findCols ("HR x".data) = []
    ∧ MOS.new cex2 = some (Except.ok cex2mos)
    ∧ cex2mos.entries = [] :=
  ⟨rfl, rfl, rfl, rfl⟩

/-- C2 amended: when a line passes the HR filter but carries zero two-digit
matches, decoding does not fail with NoColumns: if the header parses, the
result is a successful report with zero entries (the "could not parse hour
line" error only arises when no line passes the HR filter). -/
theorem C2_no_columns_amended (raw : String) (meta : MOSMeta)
    (hm : parseMeta ((splitNl raw.data).headI) = Except.ok meta)
    (hc : findHourChunks (splitNl raw.data) = some []) :
    MOS.new raw = some (Except.ok { meta := meta, entries := [], raw := raw }) := by
  cases hsp : splitNl raw.data with
  | nil => exact absurd hsp (splitNl_ne_nil _)
  | cons m rest =>
    rw [hsp] at hm hc
    unfold MOS.new
    rw [hsp]
    simp only [List.headI] at hm
    simp [decodeLines, hm, hc, buildEntriesAux, assignAll]

/-- C2 amended witness: the concrete zero-column bulletin decodes to the
empty report. -/
theorem C2_no_columns_amended_witness :
    MOS.new cex2 = some (Except.ok cex2mos) :=
  C2_no_columns_amended cex2 { icao := "KFIT", timestamp := 26298720 } rfl rfl

/-- C7: on the bulletin `cex7`, whose third line "X" is shorter than the
first column span (2, 6), the field mapper evaluates the Rust slice
`&"X"[1..6]`, an out-of-bounds byte index: `MOS::new` panics (modelled as
`none`) instead of returning Ok or Err. -/
theorem C7_short_line_panics : MOS.new cex7 = none := rfl

/-- C9 counterexample: decoding the empty input does not produce the
EmptyInput error; it produces the "no icao" MalformedHeader-class error,
because splitting the empty string on newline yields one empty line. -/
theorem C9_empty_input_counterexample :
    MOS.new "" = some (Except.error TaggedError.noIcao)
    ∧ (TaggedError.noIcao == TaggedError.emptyInput) = false :=
  ⟨rfl, rfl⟩

/-- C9 amended: the empty input fails with the "no icao in the first line"
error, a MalformedHeader-class failure; the EmptyInput branch is dead code
since `split("\n")` always yields at least one (possibly empty) line. -/
theorem C9_empty_input_amended :
    MOS.new "" = some (Except.error TaggedError.noIcao)
    ∧ malformedHeader TaggedError.noIcao
    ∧ splitNl "".data = [[]] :=
  ⟨rfl, Or.inl rfl, rfl⟩
